import Mathlib

set_option maxHeartbeats 1000000

/-!
Shallow embedding of the caching layer of the users/passengers CRUD service
(src/users/views.py, src/cache_signals.py,
src/users/management/commands/warm_cache.py).

Entities are identified by an integer id; their serialized representation is
modelled by `Val`.  The Django cache (`django.core.cache.cache`) is a
TTL-carrying key-value store, modelled by `KVStore`.  The cache keys used by
the views (`'user_list'`, `f'user_{id}'`, `'passenger_list'`,
`f'passenger_{id}'`) are modelled by the inductive `Key`.  The tag helpers
(`cache_with_tags` / `invalidate_by_tag`) take arbitrary string keys, so the
tag layer is modelled over a string-keyed store further below.
-/

/-- An entity row (User or Passenger): integer primary key plus its other
serializable fields, collapsed into one opaque blob. -/
structure Entity where
  id : Nat
  fields : String
deriving DecidableEq, Repr

/-- A serialized representation as produced by the serializers: either one
entity (`UserSerializer(user).data`) or a collection
(`UserSerializer(users, many=True).data`). -/
inductive Val where
  | one : Entity → Val
  | many : List Entity → Val
deriving DecidableEq, Repr

/-- The cache keys computed by the views: `'user_list'`, `f'user_{id}'`,
`'passenger_list'`, `f'passenger_{id}'`. -/
inductive Key where
  | userList
  | userDetail (id : Nat)
  | passengerList
  | passengerDetail (id : Nat)
deriving DecidableEq, Repr

/-- A TTL-capable key-value cache store: each present key holds a value and
the relative TTL (seconds) it was stored with. -/
structure KVStore (κ ν : Type) where
  find : κ → Option (ν × Nat)

/-- Model of `cache.set(key, value, timeout)`. -/
def KVStore.set {κ ν : Type} [DecidableEq κ] (s : KVStore κ ν) (k : κ) (v : ν) (ttl : Nat) :
    KVStore κ ν :=
  ⟨fun k2 => if k2 = k then some (v, ttl) else s.find k2⟩

/-- Model of `cache.delete(key)`. -/
def KVStore.del {κ ν : Type} [DecidableEq κ] (s : KVStore κ ν) (k : κ) : KVStore κ ν :=
  ⟨fun k2 => if k2 = k then none else s.find k2⟩

theorem KVStore.eq_of_find {κ ν : Type} {a b : KVStore κ ν}
    (h : ∀ k, a.find k = b.find k) : a = b := by
  cases a; cases b
  simp only [KVStore.mk.injEq]
  exact funext h

theorem KVStore.find_set {κ ν : Type} [DecidableEq κ] (s : KVStore κ ν) (k : κ) (v : ν)
    (ttl : Nat) (k2 : κ) :
    (s.set k v ttl).find k2 = if k2 = k then some (v, ttl) else s.find k2 := rfl

theorem KVStore.find_del {κ ν : Type} [DecidableEq κ] (s : KVStore κ ν) (k k2 : κ) :
    (s.del k).find k2 = if k2 = k then none else s.find k2 := rfl

/-- The entity-key cache used by the viewsets and the warmer. -/
abbrev Cache := KVStore Key Val

def emptyCache : Cache := ⟨fun _ => none⟩

/-- Serialization of one user, `UserSerializer(user).data`. -/
def serializeUser (e : Entity) : Val := Val.one e

/-- Serialization of one passenger, `PassengerSerializer(passenger).data`. -/
def serializePassenger (e : Entity) : Val := Val.one e

/-- Serialization of the whole user queryset, `UserSerializer(users, many=True).data`. -/
def serializeUserList (l : List Entity) : Val := Val.many l

/-- Serialization of the whole passenger queryset. -/
def serializePassengerList (l : List Entity) : Val := Val.many l

/-- Repository lookup by primary key (`queryset.get(pk=id)`); `none` models
the not-found outcome that the generic view surfaces as HTTP 404. -/
def repoGet (repo : List Entity) (id : Nat) : Option Entity :=
  repo.find? (fun e => e.id == id)

/-- Repository update of the row with the given id (`serializer.save()` on an
existing instance). -/
def repoUpdate (repo : List Entity) (id : Nat) (fields : String) : List Entity :=
  repo.map (fun e => if e.id = id then ⟨id, fields⟩ else e)

/-- One event of a mutation path: a cache primitive or the repository commit
point. -/
inductive Ev where
  | cget (k : Key)
  | cset (k : Key) (v : Val) (ttl : Nat)
  | cdel (k : Key)
  | commit
deriving DecidableEq, Repr

/-- Effect of one event on the cache (the repository commit and cache reads
leave the cache unchanged). -/
def applyEv (c : Cache) : Ev → Cache
  | Ev.cset k v t => c.set k v t
  | Ev.cdel k => c.del k
  | _ => c

/-- Replay a trace of events over the cache. -/
def runEvs (c : Cache) (l : List Ev) : Cache := l.foldl applyEv c

/-- The cache operations a path issues strictly before its repository
commit. -/
def cacheOpsBeforeCommit (l : List Ev) : List Ev :=
  l.takeWhile (fun e => decide (e ≠ Ev.commit))

/-- Cache events of `invalidate_user_cache` (post_save receiver in
src/cache_signals.py): delete `'user_list'` then `f'user_{instance.id}'`. -/
def invalidate_user_cache_evs (id : Nat) : List Ev :=
  [Ev.cdel Key.userList, Ev.cdel (Key.userDetail id)]

/-- Cache events of `invalidate_user_cache_on_delete` (post_delete receiver). -/
def invalidate_user_cache_on_delete_evs (id : Nat) : List Ev :=
  [Ev.cdel Key.userList, Ev.cdel (Key.userDetail id)]

/-- Cache events of `invalidate_passenger_cache` (post_save receiver). -/
def invalidate_passenger_cache_evs (id : Nat) : List Ev :=
  [Ev.cdel Key.passengerList, Ev.cdel (Key.passengerDetail id)]

/-- Cache events of `invalidate_passenger_cache_on_delete` (post_delete
receiver). -/
def invalidate_passenger_cache_on_delete_evs (id : Nat) : List Ev :=
  [Ev.cdel Key.passengerList, Ev.cdel (Key.passengerDetail id)]

/-- Outcome of a mutation path: repository afterwards, cache afterwards, the
ordered trace of events it issued, and whether the repository commit
succeeded. -/
structure MutResult where
  repo : List Entity
  cache : Cache
  trace : List Ev
  ok : Bool

/-- Outcome of a collection read. -/
structure ListReadResult where
  response : Val
  cache : Cache
  repoQueried : Bool
  writes : Nat

/-- Outcome of a detail read; `response = none` models the propagated
HTTP 404 when the id is not in the repository. -/
structure RetrieveResult where
  response : Option Val
  cache : Cache
  repoQueried : Bool
  writes : Nat

/-- A cache-store error raised by the cache client (e.g. connection
failure). -/
inductive CacheErr where
  | connectionFailure
deriving DecidableEq, Repr

namespace UserViewSet

/-- Embedding of `UserViewSet.list`: try `cache.get('user_list')`; on hit
return the cached data; on miss serialize the queryset, `cache.set` it with
`settings.CACHE_TTL` and return it. -/
def list (repo : List Entity) (c : Cache) (ttl : Nat) : ListReadResult :=
  match c.find Key.userList with
  | some (cached_data, _) => ⟨cached_data, c, false, 0⟩
  | none =>
      let d := serializeUserList repo
      ⟨d, c.set Key.userList d ttl, true, 1⟩

/-- Embedding of `UserViewSet.retrieve`: try `cache.get(f'user_{id}')`; on
hit return it; on miss fetch from the repository (404 propagates before any
cache write), then `cache.set` with `settings.CACHE_TTL`. -/
def retrieve (repo : List Entity) (c : Cache) (ttl : Nat) (id : Nat) : RetrieveResult :=
  match c.find (Key.userDetail id) with
  | some (cached_data, _) => ⟨some cached_data, c, false, 0⟩
  | none =>
      match repoGet repo id with
      | none => ⟨none, c, true, 0⟩
      | some e =>
          let d := serializeUser e
          ⟨some d, c.set (Key.userDetail id) d ttl, true, 1⟩

/-- Embedding of `UserViewSet.list` with the outcome of the single
`cache.get('user_list')` call made explicit.  The method body wraps that
call in no try/except, so an exception raised by the cache client
propagates out of the view before the repository is reached. -/
def list_withCacheGet (repo : List Entity) (c : Cache) (ttl : Nat)
    (getRes : Except CacheErr (Option (Val × Nat))) : Except CacheErr ListReadResult :=
  match getRes with
  | Except.error err => Except.error err
  | Except.ok (some (cached_data, _)) => Except.ok ⟨cached_data, c, false, 0⟩
  | Except.ok none =>
      let d := serializeUserList repo
      Except.ok ⟨d, c.set Key.userList d ttl, true, 1⟩

/-- Embedding of `UserViewSet.retrieve` with the outcome of
`cache.get(f'user_{id}')` made explicit; no handler surrounds the call. -/
def retrieve_withCacheGet (repo : List Entity) (c : Cache) (ttl : Nat) (id : Nat)
    (getRes : Except CacheErr (Option (Val × Nat))) : Except CacheErr RetrieveResult :=
  match getRes with
  | Except.error err => Except.error err
  | Except.ok (some (cached_data, _)) => Except.ok ⟨some cached_data, c, false, 0⟩
  | Except.ok none =>
      match repoGet repo id with
      | none => Except.ok ⟨none, c, true, 0⟩
      | some e =>
          let d := serializeUser e
          Except.ok ⟨some d, c.set (Key.userDetail id) d ttl, true, 1⟩

/-- Event trace of `UserViewSet.perform_create`: `cache.delete('user_list')`,
then `super().perform_create` (INSERT commit, whose post_save signal runs
`invalidate_user_cache`).  When the commit raises, only the view's initial
delete has been issued. -/
def perform_create_trace (e : Entity) (repoOk : Bool) : List Ev :=
  if repoOk then
    [Ev.cdel Key.userList, Ev.commit] ++ invalidate_user_cache_evs e.id
  else
    [Ev.cdel Key.userList]

/-- Embedding of `UserViewSet.perform_create` (with the post_save signal). -/
def perform_create (repo : List Entity) (c : Cache) (e : Entity) (repoOk : Bool) : MutResult :=
  ⟨if repoOk then repo ++ [e] else repo,
   runEvs c (perform_create_trace e repoOk),
   perform_create_trace e repoOk, repoOk⟩

/-- Event trace of `UserViewSet.perform_update`: `super().perform_update`
(UPDATE commit, whose post_save signal runs `invalidate_user_cache`), then
the write-through `cache.set(f'user_{id}', data, CACHE_TTL)` and
`cache.delete('user_list')`.  When the commit raises, nothing was issued. -/
def perform_update_trace (id : Nat) (fields : String) (ttl : Nat) (repoOk : Bool) : List Ev :=
  if repoOk then
    [Ev.commit] ++ invalidate_user_cache_evs id ++
      [Ev.cset (Key.userDetail id) (serializeUser ⟨id, fields⟩) ttl, Ev.cdel Key.userList]
  else []

/-- Embedding of `UserViewSet.perform_update` (with the post_save signal). -/
def perform_update (repo : List Entity) (c : Cache) (id : Nat) (fields : String)
    (ttl : Nat) (repoOk : Bool) : MutResult :=
  ⟨if repoOk then repoUpdate repo id fields else repo,
   runEvs c (perform_update_trace id fields ttl repoOk),
   perform_update_trace id fields ttl repoOk, repoOk⟩

/-- Event trace of `UserViewSet.perform_destroy`:
`cache.delete('user_list')`, `cache.delete(f'user_{id}')`, then
`super().perform_destroy` (DELETE commit, whose post_delete signal runs
`invalidate_user_cache_on_delete`). -/
def perform_destroy_trace (id : Nat) (repoOk : Bool) : List Ev :=
  if repoOk then
    [Ev.cdel Key.userList, Ev.cdel (Key.userDetail id), Ev.commit] ++
      invalidate_user_cache_on_delete_evs id
  else
    [Ev.cdel Key.userList, Ev.cdel (Key.userDetail id)]

/-- Embedding of `UserViewSet.perform_destroy` (with the post_delete
signal). -/
def perform_destroy (repo : List Entity) (c : Cache) (id : Nat) (repoOk : Bool) : MutResult :=
  ⟨if repoOk then repo.filter (fun e => e.id != id) else repo,
   runEvs c (perform_destroy_trace id repoOk),
   perform_destroy_trace id repoOk, repoOk⟩

end UserViewSet

namespace PassengerViewSet

/-- Embedding of `PassengerViewSet.list`. -/
def list (repo : List Entity) (c : Cache) (ttl : Nat) : ListReadResult :=
  match c.find Key.passengerList with
  | some (cached_data, _) => ⟨cached_data, c, false, 0⟩
  | none =>
      let d := serializePassengerList repo
      ⟨d, c.set Key.passengerList d ttl, true, 1⟩

/-- Embedding of `PassengerViewSet.retrieve`. -/
def retrieve (repo : List Entity) (c : Cache) (ttl : Nat) (id : Nat) : RetrieveResult :=
  match c.find (Key.passengerDetail id) with
  | some (cached_data, _) => ⟨some cached_data, c, false, 0⟩
  | none =>
      match repoGet repo id with
      | none => ⟨none, c, true, 0⟩
      | some e =>
          let d := serializePassenger e
          ⟨some d, c.set (Key.passengerDetail id) d ttl, true, 1⟩

/-- Embedding of `PassengerViewSet.list` with the `cache.get` outcome made
explicit; the method wraps the call in no try/except. -/
def list_withCacheGet (repo : List Entity) (c : Cache) (ttl : Nat)
    (getRes : Except CacheErr (Option (Val × Nat))) : Except CacheErr ListReadResult :=
  match getRes with
  | Except.error err => Except.error err
  | Except.ok (some (cached_data, _)) => Except.ok ⟨cached_data, c, false, 0⟩
  | Except.ok none =>
      let d := serializePassengerList repo
      Except.ok ⟨d, c.set Key.passengerList d ttl, true, 1⟩

/-- Embedding of `PassengerViewSet.retrieve` with the `cache.get` outcome
made explicit. -/
def retrieve_withCacheGet (repo : List Entity) (c : Cache) (ttl : Nat) (id : Nat)
    (getRes : Except CacheErr (Option (Val × Nat))) : Except CacheErr RetrieveResult :=
  match getRes with
  | Except.error err => Except.error err
  | Except.ok (some (cached_data, _)) => Except.ok ⟨some cached_data, c, false, 0⟩
  | Except.ok none =>
      match repoGet repo id with
      | none => Except.ok ⟨none, c, true, 0⟩
      | some e =>
          let d := serializePassenger e
          Except.ok ⟨some d, c.set (Key.passengerDetail id) d ttl, true, 1⟩

/-- Event trace of `PassengerViewSet.perform_create` (with the post_save
signal `invalidate_passenger_cache`). -/
def perform_create_trace (e : Entity) (repoOk : Bool) : List Ev :=
  if repoOk then
    [Ev.cdel Key.passengerList, Ev.commit] ++ invalidate_passenger_cache_evs e.id
  else
    [Ev.cdel Key.passengerList]

/-- Embedding of `PassengerViewSet.perform_create`. -/
def perform_create (repo : List Entity) (c : Cache) (e : Entity) (repoOk : Bool) : MutResult :=
  ⟨if repoOk then repo ++ [e] else repo,
   runEvs c (perform_create_trace e repoOk),
   perform_create_trace e repoOk, repoOk⟩

/-- Event trace of `PassengerViewSet.perform_update` (with the post_save
signal). -/
def perform_update_trace (id : Nat) (fields : String) (ttl : Nat) (repoOk : Bool) : List Ev :=
  if repoOk then
    [Ev.commit] ++ invalidate_passenger_cache_evs id ++
      [Ev.cset (Key.passengerDetail id) (serializePassenger ⟨id, fields⟩) ttl,
       Ev.cdel Key.passengerList]
  else []

/-- Embedding of `PassengerViewSet.perform_update`. -/
def perform_update (repo : List Entity) (c : Cache) (id : Nat) (fields : String)
    (ttl : Nat) (repoOk : Bool) : MutResult :=
  ⟨if repoOk then repoUpdate repo id fields else repo,
   runEvs c (perform_update_trace id fields ttl repoOk),
   perform_update_trace id fields ttl repoOk, repoOk⟩

/-- Event trace of `PassengerViewSet.perform_destroy` (with the post_delete
signal). -/
def perform_destroy_trace (id : Nat) (repoOk : Bool) : List Ev :=
  if repoOk then
    [Ev.cdel Key.passengerList, Ev.cdel (Key.passengerDetail id), Ev.commit] ++
      invalidate_passenger_cache_on_delete_evs id
  else
    [Ev.cdel Key.passengerList, Ev.cdel (Key.passengerDetail id)]

/-- Embedding of `PassengerViewSet.perform_destroy`. -/
def perform_destroy (repo : List Entity) (c : Cache) (id : Nat) (repoOk : Bool) : MutResult :=
  ⟨if repoOk then repo.filter (fun e => e.id != id) else repo,
   runEvs c (perform_destroy_trace id repoOk),
   perform_destroy_trace id repoOk, repoOk⟩

end PassengerViewSet

/-- A primitive value in the JSON response of the stats endpoint. -/
inductive RVal where
  | b (x : Bool)
  | n (x : Nat)
  | s (x : String)
deriving DecidableEq, Repr

/-- Outcome of the `cache_stats` endpoint: the response dict (as an ordered
field list), the repository and cache afterwards, and the trace of cache
events issued. -/
structure StatsResult where
  response : List (String × RVal)
  repo : List Entity
  cache : Cache
  trace : List Ev

/-- Embedding of the `cache_stats` view: one `cache.get('user_list')` to
test presence, one `User.objects.count()`, and a four-field response dict. -/
def cache_stats (repo : List Entity) (c : Cache) (ttl : Nat) : StatsResult :=
  let user_list_cached := (c.find Key.userList).isSome
  let total_users := repo.length
  ⟨[("user_list_cached", RVal.b user_list_cached),
    ("total_users_in_db", RVal.n total_users),
    ("cache_timeout_seconds", RVal.n ttl),
    ("message", RVal.s "Cache statistics - shows if data is currently cached")],
   repo, c, [Ev.cget Key.userList]⟩

/-- Result of a wrapped call: the value-or-exception of the wrapped function
plus the log lines emitted. -/
structure TimedCall (ε β : Type) where
  value : Except ε β
  log : List String

/-- Embedding of the `cache_performance(cache_name)` decorator: record the
start time, run the wrapped function, log the elapsed duration, return the
result unchanged.  An exception from the wrapped function propagates before
the log line is emitted.  `elapsed` models the wall-clock duration measured
by the two `time.time()` calls. -/
def cache_performance {α ε β : Type} (cache_name : String) (func : α → Except ε β)
    (elapsed : Nat) (x : α) : TimedCall ε β :=
  match func x with
  | Except.error e => ⟨Except.error e, []⟩
  | Except.ok result => ⟨Except.ok result, [cache_name ++ ": " ++ toString elapsed ++ "s"]⟩

/-- Embedding of the warm_cache management command (`Command.handle`): cache
the serialized user list, then each user under its detail key, then the
serialized passenger list, then each passenger under its detail key, always
with `settings.CACHE_TTL`. -/
def warm_cache (users passengers : List Entity) (ttl : Nat) (c : Cache) : Cache :=
  let c1 := c.set Key.userList (serializeUserList users) ttl
  let c2 := users.foldl (fun acc u => acc.set (Key.userDetail u.id) (serializeUser u) ttl) c1
  let c3 := c2.set Key.passengerList (serializePassengerList passengers) ttl
  passengers.foldl
    (fun acc p => acc.set (Key.passengerDetail p.id) (serializePassenger p) ttl) c3

/-! The tag helpers in src/users/views.py operate on arbitrary string keys;
the values they store are either serialized data or a Python `set` of keys
(under the `f'tag_{tag}'` keys). -/

/-- A value stored by the tag layer: a serialized data blob, or a set of
cache keys (the key set kept under a `f'tag_{tag}'` entry, modelled as a
duplicate-free list). -/
inductive TVal where
  | data : String → TVal
  | keys : List String → TVal
deriving DecidableEq, Repr

/-- The string-keyed store seen by the tag helpers. -/
abbrev TStore := KVStore String TVal

def emptyTStore : TStore := ⟨fun _ => none⟩

/-- The key holding the key set of a tag: `f'tag_{tag}'`. -/
def tagKey (tag : String) : String := "tag_" ++ tag

/-- Python `tagged_keys.add(key)` on a set modelled as a duplicate-free
list. -/
def setInsert (s : List String) (k : String) : List String :=
  if k ∈ s then s else s ++ [k]

/-- Result of `cache.get(f'tag_{tag}', set())` followed by `.add`: an absent
entry defaults to the empty set; a stored key set is returned; a stored data
blob makes the subsequent `.add` raise (`none`). -/
def asKeySet : Option (TVal × Nat) → Option (List String)
  | none => some []
  | some (TVal.keys s, _) => some s
  | some (TVal.data _, _) => none

/-- The key set currently recorded under a tag (empty when absent or when
the slot holds non-set data). -/
def keysAt (c : TStore) (tag : String) : List String :=
  match c.find (tagKey tag) with
  | some (TVal.keys s, _) => s
  | _ => []

/-- What `for key in cache.get(f'tag_{tag}', set())` iterates over: the
stored key set, nothing when absent, and the one-character strings of a data
blob (Python iterates a `str` by characters). -/
def storedTagKeys : Option (TVal × Nat) → List String
  | none => []
  | some (TVal.keys s, _) => s
  | some (TVal.data str, _) => str.data.map (fun ch => String.mk [ch])

/-- One iteration of the tag loop in `cache_with_tags`: read the key set of
`tag` (default empty set), add `key`, store it back with the same timeout.
`none` models the AttributeError raised when the slot holds non-set data. -/
def addTag (key : String) (timeout : Nat) (c : TStore) (tag : String) : Option TStore :=
  match asKeySet (c.find (tagKey tag)) with
  | none => none
  | some tagged_keys =>
      some (c.set (tagKey tag) (TVal.keys (setInsert tagged_keys key)) timeout)

/-- Embedding of `cache_with_tags(key, data, tags, timeout)`: store the data
under `key`, then record `key` in the key set of every tag, all with the
same `timeout`. -/
def cache_with_tags (key : String) (data : String) (tags : List String)
    (timeout : Nat) (c : TStore) : Option TStore :=
  List.foldlM (addTag key timeout) (c.set key (TVal.data data) timeout) tags

/-- `cache_with_tags` invoked without an explicit timeout argument: the
source declares `timeout=300` as the default. -/
def cache_with_tags_default (key : String) (data : String) (tags : List String)
    (c : TStore) : Option TStore :=
  cache_with_tags key data tags 300 c

/-- Embedding of `invalidate_by_tag(tag)`: fetch the recorded key set
(default empty), delete every key in it, then delete the tag entry itself. -/
def invalidate_by_tag (tag : String) (c : TStore) : TStore :=
  let tagged_keys := storedTagKeys (c.find (tagKey tag))
  (tagged_keys.foldl (fun acc k => acc.del k) c).del (tagKey tag)

/-! Claim theorems -/

/-- A mutating cache primitive (set or delete), as opposed to a read. -/
def Ev.isMutation : Ev → Bool
  | Ev.cset _ _ _ => true
  | Ev.cdel _ => true
  | _ => false

/-- A small concrete cache used by concrete counterexamples and witnesses:
the collection key and the detail key for id 1 are populated. -/
def c0 : Cache :=
  (emptyCache.set Key.userList (Val.many []) 60).set (Key.userDetail 1) (Val.one ⟨1, "stale"⟩) 60

/-- C7: the `cache_performance` wrapper returns exactly the wrapped
function's value and propagates exactly its exception, for every wrapped
operation and input: pure side-channel observation. -/
theorem cache_performance_transparent {α ε β : Type} (cache_name : String)
    (func : α → Except ε β) (elapsed : Nat) (x : α) :
    (cache_performance cache_name func elapsed x).value = func x := by
  cases h : func x <;> simp [cache_performance, h]

/-- C9 counterexample: the stats response does not consist of exactly the
three listed items — it carries a fourth, constant `message` entry. -/
theorem cache_stats_effect_cex :
    (cache_stats [] emptyCache 60).response.length = 4 ∧
    (cache_stats [] emptyCache 60).response.map Prod.fst =
      ["user_list_cached", "total_users_in_db", "cache_timeout_seconds", "message"] := by
  exact ⟨rfl, rfl⟩

/-- C9 (amended): `cache_stats` reports whether the collection key is
present, the repository entity count and the configured TTL, plus a constant
informational `message` string; it issues a single cache read and no cache
set/delete and no repository mutation, leaving cache and repository
unchanged. -/
theorem cache_stats_effect (repo : List Entity) (c : Cache) (ttl : Nat) :
    (cache_stats repo c ttl).response =
      [("user_list_cached", RVal.b (c.find Key.userList).isSome),
       ("total_users_in_db", RVal.n repo.length),
       ("cache_timeout_seconds", RVal.n ttl),
       ("message", RVal.s "Cache statistics - shows if data is currently cached")] ∧
    (cache_stats repo c ttl).repo = repo ∧
    (∀ k, (cache_stats repo c ttl).cache.find k = c.find k) ∧
    (cache_stats repo c ttl).trace = [Ev.cget Key.userList] ∧
    (cache_stats repo c ttl).trace.all (fun e => !e.isMutation) = true := by
  refine ⟨rfl, rfl, fun k => rfl, rfl, rfl⟩

/-- C3: after a successful update of entity `id`, the detail cache key holds
the freshly serialized post-update entity with the configured TTL, the
collection key is absent, and a subsequent detail read for `id` is a cache
hit returning the new fields with no repository query and no cache write
(for users and passengers alike). -/
theorem update_write_through (repo : List Entity) (c : Cache) (id : Nat)
    (fields : String) (ttl : Nat) :
    (UserViewSet.perform_update repo c id fields ttl true).cache.find (Key.userDetail id) =
      some (serializeUser ⟨id, fields⟩, ttl) ∧
    (UserViewSet.perform_update repo c id fields ttl true).cache.find Key.userList = none ∧
    UserViewSet.retrieve (UserViewSet.perform_update repo c id fields ttl true).repo
        (UserViewSet.perform_update repo c id fields ttl true).cache ttl id =
      ⟨some (serializeUser ⟨id, fields⟩),
       (UserViewSet.perform_update repo c id fields ttl true).cache, false, 0⟩ ∧
    (PassengerViewSet.perform_update repo c id fields ttl true).cache.find
        (Key.passengerDetail id) = some (serializePassenger ⟨id, fields⟩, ttl) ∧
    (PassengerViewSet.perform_update repo c id fields ttl true).cache.find
        Key.passengerList = none ∧
    PassengerViewSet.retrieve (PassengerViewSet.perform_update repo c id fields ttl true).repo
        (PassengerViewSet.perform_update repo c id fields ttl true).cache ttl id =
      ⟨some (serializePassenger ⟨id, fields⟩),
       (PassengerViewSet.perform_update repo c id fields ttl true).cache, false, 0⟩ := by
  have hu : (UserViewSet.perform_update repo c id fields ttl true).cache.find
      (Key.userDetail id) = some (serializeUser ⟨id, fields⟩, ttl) := by
    simp [UserViewSet.perform_update, UserViewSet.perform_update_trace, runEvs, applyEv,
      invalidate_user_cache_evs, KVStore.find_del, KVStore.find_set]
  have hp : (PassengerViewSet.perform_update repo c id fields ttl true).cache.find
      (Key.passengerDetail id) = some (serializePassenger ⟨id, fields⟩, ttl) := by
    simp [PassengerViewSet.perform_update, PassengerViewSet.perform_update_trace, runEvs,
      applyEv, invalidate_passenger_cache_evs, KVStore.find_del, KVStore.find_set]
  refine ⟨hu, ?_, ?_, hp, ?_, ?_⟩
  · simp [UserViewSet.perform_update, UserViewSet.perform_update_trace, runEvs, applyEv,
      invalidate_user_cache_evs, KVStore.find_del, KVStore.find_set]
  · simp [UserViewSet.retrieve, hu]
  · simp [PassengerViewSet.perform_update, PassengerViewSet.perform_update_trace, runEvs,
      applyEv, invalidate_passenger_cache_evs, KVStore.find_del, KVStore.find_set]
  · simp [PassengerViewSet.retrieve, hp]

/-- C1 counterexample: on the create path the collection-key delete is
issued before the repository commit, and when the commit fails the
collection key has already been removed — the cache state changed. -/
theorem commit_vs_cache_order_cex :
    cacheOpsBeforeCommit (UserViewSet.perform_create [] c0 ⟨1, "a"⟩ true).trace ≠ [] ∧
    (UserViewSet.perform_create [] c0 ⟨1, "a"⟩ false).ok = false ∧
    (UserViewSet.perform_create [] c0 ⟨1, "a"⟩ false).trace ≠ [] ∧
    (UserViewSet.perform_create [] c0 ⟨1, "a"⟩ false).cache.find Key.userList ≠
      c0.find Key.userList := by
  refine ⟨by decide, by decide, by decide, by decide⟩

/-- C1 (amended): only the update path commits before every cache
operation (and a failed update performs no cache operation); the create and
destroy paths issue their view-level cache deletes before the commit, so a
failed create has already deleted the collection key and a failed destroy
has already deleted both the collection key and the detail key. -/
theorem commit_vs_cache_order (repo : List Entity) (c : Cache) (e : Entity) (id : Nat)
    (fields : String) (ttl : Nat) :
    cacheOpsBeforeCommit (UserViewSet.perform_update repo c id fields ttl true).trace = [] ∧
    (UserViewSet.perform_update repo c id fields ttl false).trace = [] ∧
    (∀ k, (UserViewSet.perform_update repo c id fields ttl false).cache.find k = c.find k) ∧
    cacheOpsBeforeCommit (UserViewSet.perform_create repo c e true).trace =
      [Ev.cdel Key.userList] ∧
    (UserViewSet.perform_create repo c e false).trace = [Ev.cdel Key.userList] ∧
    (∀ k, (UserViewSet.perform_create repo c e false).cache.find k =
      if k = Key.userList then none else c.find k) ∧
    cacheOpsBeforeCommit (UserViewSet.perform_destroy repo c id true).trace =
      [Ev.cdel Key.userList, Ev.cdel (Key.userDetail id)] ∧
    (UserViewSet.perform_destroy repo c id false).trace =
      [Ev.cdel Key.userList, Ev.cdel (Key.userDetail id)] ∧
    (∀ k, (UserViewSet.perform_destroy repo c id false).cache.find k =
      if k = Key.userDetail id then none else if k = Key.userList then none else c.find k) ∧
    cacheOpsBeforeCommit (PassengerViewSet.perform_update repo c id fields ttl true).trace
      = [] ∧
    (PassengerViewSet.perform_update repo c id fields ttl false).trace = [] ∧
    (∀ k, (PassengerViewSet.perform_update repo c id fields ttl false).cache.find k =
      c.find k) ∧
    cacheOpsBeforeCommit (PassengerViewSet.perform_create repo c e true).trace =
      [Ev.cdel Key.passengerList] ∧
    (PassengerViewSet.perform_create repo c e false).trace = [Ev.cdel Key.passengerList] ∧
    (∀ k, (PassengerViewSet.perform_create repo c e false).cache.find k =
      if k = Key.passengerList then none else c.find k) ∧
    cacheOpsBeforeCommit (PassengerViewSet.perform_destroy repo c id true).trace =
      [Ev.cdel Key.passengerList, Ev.cdel (Key.passengerDetail id)] ∧
    (PassengerViewSet.perform_destroy repo c id false).trace =
      [Ev.cdel Key.passengerList, Ev.cdel (Key.passengerDetail id)] ∧
    (∀ k, (PassengerViewSet.perform_destroy repo c id false).cache.find k =
      if k = Key.passengerDetail id then none else if k = Key.passengerList then none
      else c.find k) := by
  refine ⟨rfl, rfl, fun k => rfl, rfl, rfl, fun k => rfl, rfl, rfl, fun k => rfl,
    rfl, rfl, fun k => rfl, rfl, rfl, fun k => rfl, rfl, rfl, fun k => rfl⟩

/-- C2 counterexample: the create path does perform a cache operation on a
detail key — the post_save signal deletes the detail key of the created id —
and a pre-existing cache entry under that detail key is removed by it. -/
theorem create_cache_effect_cex :
    Ev.cdel (Key.userDetail 1) ∈ (UserViewSet.perform_create [] c0 ⟨1, "a"⟩ true).trace ∧
    (UserViewSet.perform_create [] c0 ⟨1, "a"⟩ true).cache.find (Key.userDetail 1) ≠
      c0.find (Key.userDetail 1) := by
  refine ⟨by decide, by decide⟩

/-- C2 (amended): a successful create deletes the collection key and — via
the post_save signal — also deletes the detail key of the newly created id;
every other cache entry is unchanged. -/
theorem create_cache_effect (repo : List Entity) (c : Cache) (e : Entity) :
    (UserViewSet.perform_create repo c e true).trace =
      [Ev.cdel Key.userList, Ev.commit, Ev.cdel Key.userList,
       Ev.cdel (Key.userDetail e.id)] ∧
    (∀ k, (UserViewSet.perform_create repo c e true).cache.find k =
      if k = Key.userDetail e.id then none else if k = Key.userList then none
      else c.find k) ∧
    (PassengerViewSet.perform_create repo c e true).trace =
      [Ev.cdel Key.passengerList, Ev.commit, Ev.cdel Key.passengerList,
       Ev.cdel (Key.passengerDetail e.id)] ∧
    (∀ k, (PassengerViewSet.perform_create repo c e true).cache.find k =
      if k = Key.passengerDetail e.id then none else if k = Key.passengerList then none
      else c.find k) := by
  refine ⟨rfl, fun k => ?_, rfl, fun k => ?_⟩
  · by_cases h1 : k = Key.userDetail e.id <;> by_cases h2 : k = Key.userList <;>
      simp [UserViewSet.perform_create, UserViewSet.perform_create_trace, runEvs, applyEv,
        invalidate_user_cache_evs, KVStore.find_del, h1, h2]
  · by_cases h1 : k = Key.passengerDetail e.id <;> by_cases h2 : k = Key.passengerList <;>
      simp [PassengerViewSet.perform_create, PassengerViewSet.perform_create_trace, runEvs,
        applyEv, invalidate_passenger_cache_evs, KVStore.find_del, h1, h2]

/-- C4 counterexample: a detail read that misses the cache on an id absent
from the repository queries the repository but performs no cache population
write — refuting that a miss always produces exactly one population write. -/
theorem read_path_cache_aside_cex :
    emptyCache.find (Key.userDetail 5) = none ∧
    (UserViewSet.retrieve [] emptyCache 60 5).repoQueried = true ∧
    (UserViewSet.retrieve [] emptyCache 60 5).writes = 0 := by
  refine ⟨rfl, by decide, by decide⟩

/-- C4 (amended): a hit returns the cached value verbatim with no repository
query and no cache write; a miss queries the repository and, when the entity
(or the collection) is found, stores the serialized result under the key
with the configured TTL and returns it — exactly one population write; a
detail miss whose id is not in the repository propagates not-found with no
cache write. -/
theorem read_path_cache_aside (repo : List Entity) (c : Cache) (ttl : Nat) :
    (∀ v t, c.find Key.userList = some (v, t) →
      UserViewSet.list repo c ttl = ⟨v, c, false, 0⟩) ∧
    (c.find Key.userList = none →
      UserViewSet.list repo c ttl =
        ⟨serializeUserList repo, c.set Key.userList (serializeUserList repo) ttl, true, 1⟩) ∧
    (∀ id v t, c.find (Key.userDetail id) = some (v, t) →
      UserViewSet.retrieve repo c ttl id = ⟨some v, c, false, 0⟩) ∧
    (∀ id e, c.find (Key.userDetail id) = none → repoGet repo id = some e →
      UserViewSet.retrieve repo c ttl id =
        ⟨some (serializeUser e), c.set (Key.userDetail id) (serializeUser e) ttl, true, 1⟩) ∧
    (∀ id, c.find (Key.userDetail id) = none → repoGet repo id = none →
      UserViewSet.retrieve repo c ttl id = ⟨none, c, true, 0⟩) ∧
    (∀ v t, c.find Key.passengerList = some (v, t) →
      PassengerViewSet.list repo c ttl = ⟨v, c, false, 0⟩) ∧
    (c.find Key.passengerList = none →
      PassengerViewSet.list repo c ttl =
        ⟨serializePassengerList repo,
         c.set Key.passengerList (serializePassengerList repo) ttl, true, 1⟩) ∧
    (∀ id v t, c.find (Key.passengerDetail id) = some (v, t) →
      PassengerViewSet.retrieve repo c ttl id = ⟨some v, c, false, 0⟩) ∧
    (∀ id e, c.find (Key.passengerDetail id) = none → repoGet repo id = some e →
      PassengerViewSet.retrieve repo c ttl id =
        ⟨some (serializePassenger e),
         c.set (Key.passengerDetail id) (serializePassenger e) ttl, true, 1⟩) ∧
    (∀ id, c.find (Key.passengerDetail id) = none → repoGet repo id = none →
      PassengerViewSet.retrieve repo c ttl id = ⟨none, c, true, 0⟩) := by
  refine ⟨fun v t h => ?_, fun h => ?_, fun id v t h => ?_, fun id e h h2 => ?_,
    fun id h h2 => ?_, fun v t h => ?_, fun h => ?_, fun id v t h => ?_,
    fun id e h h2 => ?_, fun id h h2 => ?_⟩
  · simp [UserViewSet.list, h]
  · simp [UserViewSet.list, h]
  · simp [UserViewSet.retrieve, h]
  · simp [UserViewSet.retrieve, h, h2]
  · simp [UserViewSet.retrieve, h, h2]
  · simp [PassengerViewSet.list, h]
  · simp [PassengerViewSet.list, h]
  · simp [PassengerViewSet.retrieve, h]
  · simp [PassengerViewSet.retrieve, h, h2]
  · simp [PassengerViewSet.retrieve, h, h2]

/-- C4 witness: concrete hit and miss runs of the amended read-path
theorem. -/
theorem read_path_cache_aside_witness :
    UserViewSet.list [] c0 60 = ⟨Val.many [], c0, false, 0⟩ ∧
    UserViewSet.retrieve [⟨2, "b"⟩] emptyCache 60 2 =
      ⟨some (serializeUser ⟨2, "b"⟩),
       emptyCache.set (Key.userDetail 2) (serializeUser ⟨2, "b"⟩) 60, true, 1⟩ ∧
    UserViewSet.retrieve [] emptyCache 60 5 = ⟨none, emptyCache, true, 0⟩ := by
  exact ⟨(read_path_cache_aside [] c0 60).1 (Val.many []) 60 rfl,
    (read_path_cache_aside [⟨2, "b"⟩] emptyCache 60).2.2.2.1 2 ⟨2, "b"⟩ rfl rfl,
    (read_path_cache_aside [] emptyCache 60).2.2.2.2.1 5 rfl rfl⟩

/-- C5 counterexample: a connection failure raised by `cache.get` during the
list read propagates out of the view — the read does not succeed and does
not return repository data. -/
theorem cache_error_read_path_cex :
    UserViewSet.list_withCacheGet [⟨1, "a"⟩] emptyCache 60
      (Except.error CacheErr.connectionFailure) =
      Except.error CacheErr.connectionFailure ∧
    UserViewSet.list_withCacheGet [⟨1, "a"⟩] emptyCache 60
      (Except.error CacheErr.connectionFailure) ≠
      Except.ok (UserViewSet.list [⟨1, "a"⟩] emptyCache 60) := by
  exact ⟨rfl, fun h => Except.noConfusion h⟩

/-- C5 (amended): a cache-store error raised during the read-path cache
lookup is not caught: it propagates to the caller unchanged and the
repository is never reached; when the lookup returns normally the read
behaves exactly like the plain read path. -/
theorem cache_error_read_path (repo : List Entity) (c : Cache) (ttl : Nat) (id : Nat)
    (err : CacheErr) :
    UserViewSet.list_withCacheGet repo c ttl (Except.error err) = Except.error err ∧
    UserViewSet.retrieve_withCacheGet repo c ttl id (Except.error err) = Except.error err ∧
    PassengerViewSet.list_withCacheGet repo c ttl (Except.error err) = Except.error err ∧
    PassengerViewSet.retrieve_withCacheGet repo c ttl id (Except.error err) =
      Except.error err ∧
    UserViewSet.list_withCacheGet repo c ttl (Except.ok (c.find Key.userList)) =
      Except.ok (UserViewSet.list repo c ttl) ∧
    UserViewSet.retrieve_withCacheGet repo c ttl id
        (Except.ok (c.find (Key.userDetail id))) =
      Except.ok (UserViewSet.retrieve repo c ttl id) ∧
    PassengerViewSet.list_withCacheGet repo c ttl (Except.ok (c.find Key.passengerList)) =
      Except.ok (PassengerViewSet.list repo c ttl) ∧
    PassengerViewSet.retrieve_withCacheGet repo c ttl id
        (Except.ok (c.find (Key.passengerDetail id))) =
      Except.ok (PassengerViewSet.retrieve repo c ttl id) := by
  refine ⟨rfl, rfl, rfl, rfl, ?_, ?_, ?_, ?_⟩
  · cases h : c.find Key.userList with
    | none => simp [UserViewSet.list_withCacheGet, UserViewSet.list, h]
    | some p => cases p with
      | mk v t => simp [UserViewSet.list_withCacheGet, UserViewSet.list, h]
  · cases h : c.find (Key.userDetail id) with
    | none =>
        cases h2 : repoGet repo id with
        | none => simp [UserViewSet.retrieve_withCacheGet, UserViewSet.retrieve, h, h2]
        | some e => simp [UserViewSet.retrieve_withCacheGet, UserViewSet.retrieve, h, h2]
    | some p => cases p with
      | mk v t => simp [UserViewSet.retrieve_withCacheGet, UserViewSet.retrieve, h]
  · cases h : c.find Key.passengerList with
    | none => simp [PassengerViewSet.list_withCacheGet, PassengerViewSet.list, h]
    | some p => cases p with
      | mk v t => simp [PassengerViewSet.list_withCacheGet, PassengerViewSet.list, h]
  · cases h : c.find (Key.passengerDetail id) with
    | none =>
        cases h2 : repoGet repo id with
        | none =>
            simp [PassengerViewSet.retrieve_withCacheGet, PassengerViewSet.retrieve, h, h2]
        | some e =>
            simp [PassengerViewSet.retrieve_withCacheGet, PassengerViewSet.retrieve, h, h2]
    | some p => cases p with
      | mk v t => simp [PassengerViewSet.retrieve_withCacheGet, PassengerViewSet.retrieve, h]

/-- The last entity of the list carrying the given id — in the warmer's
per-entity loop, a later `cache.set` for the same detail key wins. -/
def lastVal : List Entity → Nat → Option Entity
  | [], _ => none
  | u :: l, i =>
      match lastVal l i with
      | some v => some v
      | none => if u.id = i then some u else none

theorem lastVal_mem : ∀ {l : List Entity} {i : Nat} {v : Entity},
    lastVal l i = some v → v ∈ l ∧ v.id = i := by
  intro l
  induction l with
  | nil => intro i v h; simp [lastVal] at h
  | cons u l ih =>
      intro i v h
      unfold lastVal at h
      cases hl : lastVal l i with
      | some w =>
          rw [hl] at h
          cases h
          obtain ⟨hm, hi⟩ := ih hl
          exact ⟨List.mem_cons_of_mem _ hm, hi⟩
      | none =>
          rw [hl] at h
          by_cases hu : u.id = i
          · rw [if_pos hu] at h
            cases h
            exact ⟨List.mem_cons_self _ _, hu⟩
          · rw [if_neg hu] at h
            cases h

theorem lastVal_eq_repoGet : ∀ {l : List Entity}, (l.map Entity.id).Nodup →
    ∀ i, lastVal l i = repoGet l i := by
  intro l
  induction l with
  | nil => intro _ i; rfl
  | cons u l ih =>
      intro h i
      rw [List.map_cons, List.nodup_cons] at h
      obtain ⟨h1, h2⟩ := h
      by_cases hu : u.id = i
      · have hnone : lastVal l i = none := by
          cases hl : lastVal l i with
          | none => rfl
          | some v =>
              obtain ⟨hm, hvi⟩ := lastVal_mem hl
              have hv : v.id ∈ l.map Entity.id := List.mem_map_of_mem Entity.id hm
              rw [hvi, ← hu] at hv
              exact absurd hv h1
        unfold lastVal
        rw [hnone, if_pos hu]
        exact (List.find?_cons_of_pos l (by simp [hu])).symm
      · have hstep : lastVal (u :: l) i = lastVal l i := by
          cases hl : lastVal l i with
          | some v => simp [lastVal, hl]
          | none => simp [lastVal, hl, hu]
        rw [hstep, ih h2 i]
        exact (List.find?_cons_of_neg l (by simp [hu])).symm

theorem foldl_set_find_of_ne (f : Nat → Key) (ttl : Nat) (mkV : Entity → Val) :
    ∀ (l : List Entity) (c : Cache) (k : Key), (∀ i, k ≠ f i) →
      (l.foldl (fun acc u => acc.set (f u.id) (mkV u) ttl) c).find k = c.find k := by
  intro l
  induction l with
  | nil => intro c k _; rfl
  | cons u l ih =>
      intro c k h
      show (l.foldl _ (c.set (f u.id) (mkV u) ttl)).find k = _
      rw [ih (c.set (f u.id) (mkV u) ttl) k h, KVStore.find_set]
      exact if_neg (h u.id)

theorem foldl_set_find_at (f : Nat → Key) (hf : ∀ a b, f a = f b → a = b) (ttl : Nat)
    (mkV : Entity → Val) :
    ∀ (l : List Entity) (c : Cache) (i : Nat),
      (l.foldl (fun acc u => acc.set (f u.id) (mkV u) ttl) c).find (f i) =
        (lastVal l i).elim (c.find (f i)) (fun u => some (mkV u, ttl)) := by
  intro l
  induction l with
  | nil => intro c i; rfl
  | cons u l ih =>
      intro c i
      show (l.foldl _ (c.set (f u.id) (mkV u) ttl)).find (f i) = _
      rw [ih]
      cases hl : lastVal l i with
      | some v => simp [lastVal, hl]
      | none =>
          by_cases hui : u.id = i
          · simp only [lastVal, hl, if_pos hui, Option.elim, KVStore.find_set,
              if_pos (congrArg f hui).symm]
          · have hne : f i ≠ f u.id := fun hc => hui (hf _ _ hc.symm)
            simp only [lastVal, hl, if_neg hui, Option.elim, KVStore.find_set, if_neg hne]

theorem warm_cache_find (users passengers : List Entity) (ttl : Nat) (c : Cache) :
    (warm_cache users passengers ttl c).find Key.userList =
      some (Val.many users, ttl) ∧
    (warm_cache users passengers ttl c).find Key.passengerList =
      some (Val.many passengers, ttl) ∧
    (∀ i, (warm_cache users passengers ttl c).find (Key.userDetail i) =
      (lastVal users i).elim (c.find (Key.userDetail i)) (fun u => some (Val.one u, ttl))) ∧
    (∀ i, (warm_cache users passengers ttl c).find (Key.passengerDetail i) =
      (lastVal passengers i).elim (c.find (Key.passengerDetail i))
        (fun p => some (Val.one p, ttl))) := by
  unfold warm_cache
  refine ⟨?_, ?_, fun i => ?_, fun i => ?_⟩
  · rw [foldl_set_find_of_ne (f := Key.passengerDetail) _ _ _ _ _
      (fun i h => Key.noConfusion h)]
    rw [KVStore.find_set, if_neg (fun h => Key.noConfusion h)]
    rw [foldl_set_find_of_ne (f := Key.userDetail) _ _ _ _ _ (fun i h => Key.noConfusion h)]
    rw [KVStore.find_set, if_pos rfl]
    rfl
  · rw [foldl_set_find_of_ne (f := Key.passengerDetail) _ _ _ _ _
      (fun i h => Key.noConfusion h)]
    rw [KVStore.find_set, if_pos rfl]
    rfl
  · rw [foldl_set_find_of_ne (f := Key.passengerDetail) _ _ _ _ _
      (fun j h => Key.noConfusion h)]
    rw [KVStore.find_set, if_neg (fun h => Key.noConfusion h)]
    rw [foldl_set_find_at (f := Key.userDetail)
      (fun a b h => by cases h; rfl)]
    rw [KVStore.find_set, if_neg (fun h => Key.noConfusion h)]
    rfl
  · rw [foldl_set_find_at (f := Key.passengerDetail) (fun a b h => by cases h; rfl)]
    rw [KVStore.find_set, if_neg (fun h => Key.noConfusion h)]
    rw [foldl_set_find_of_ne (f := Key.userDetail) _ _ _ _ _
      (fun j h => Key.noConfusion h)]
    rw [KVStore.find_set, if_neg (fun h => Key.noConfusion h)]
    rfl

/-- C8: after running the cache warmer, the collection key of each entity
type holds the serialized full collection with the configured TTL, and a
detail read for every id present in the repository is a cache hit whose
representation equals the direct repository serialization of that entity
(no repository query, no cache write); re-running the warmer is idempotent. -/
theorem warm_cache_round_trip (users passengers : List Entity) (ttl : Nat) (c : Cache)
    (hu : (users.map Entity.id).Nodup) (hp : (passengers.map Entity.id).Nodup) :
    (warm_cache users passengers ttl c).find Key.userList =
      some (serializeUserList users, ttl) ∧
    (warm_cache users passengers ttl c).find Key.passengerList =
      some (serializePassengerList passengers, ttl) ∧
    (∀ id e, repoGet users id = some e →
      UserViewSet.retrieve users (warm_cache users passengers ttl c) ttl id =
        ⟨some (serializeUser e), warm_cache users passengers ttl c, false, 0⟩) ∧
    (∀ id e, repoGet passengers id = some e →
      PassengerViewSet.retrieve passengers (warm_cache users passengers ttl c) ttl id =
        ⟨some (serializePassenger e), warm_cache users passengers ttl c, false, 0⟩) ∧
    warm_cache users passengers ttl (warm_cache users passengers ttl c) =
      warm_cache users passengers ttl c := by
  obtain ⟨h1, h2, h3, h4⟩ := warm_cache_find users passengers ttl c
  refine ⟨h1, h2, fun id e h => ?_, fun id e h => ?_, ?_⟩
  · have hfind : (warm_cache users passengers ttl c).find (Key.userDetail id) =
        some (Val.one e, ttl) := by
      rw [h3 id, lastVal_eq_repoGet hu id, h]
      rfl
    simp [UserViewSet.retrieve, hfind, serializeUser]
  · have hfind : (warm_cache users passengers ttl c).find (Key.passengerDetail id) =
        some (Val.one e, ttl) := by
      rw [h4 id, lastVal_eq_repoGet hp id, h]
      rfl
    simp [PassengerViewSet.retrieve, hfind, serializePassenger]
  · obtain ⟨g1, g2, g3, g4⟩ :=
      warm_cache_find users passengers ttl (warm_cache users passengers ttl c)
    apply KVStore.eq_of_find
    intro k
    cases k with
    | userList => rw [g1, h1]
    | passengerList => rw [g2, h2]
    | userDetail i =>
        rw [g3 i, h3 i]
        cases hl : lastVal users i with
        | some v => rfl
        | none => simp only [Option.elim]
    | passengerDetail i =>
        rw [g4 i, h4 i]
        cases hl : lastVal passengers i with
        | some v => rfl
        | none => simp only [Option.elim]

/-- Concrete repository contents used by the warm-cache witness. -/
def warmUsers : List Entity := [⟨1, "u"⟩]

/-- Concrete passenger contents used by the warm-cache witness. -/
def warmPassengers : List Entity := [⟨2, "p"⟩]

/-- C8 witness: a concrete run of the warmer over one user and one
passenger, with the subsequent detail reads hitting and the second run a
no-op. -/
theorem warm_cache_round_trip_witness :
    (warm_cache warmUsers warmPassengers 60 emptyCache).find Key.userList =
      some (serializeUserList warmUsers, 60) ∧
    UserViewSet.retrieve warmUsers (warm_cache warmUsers warmPassengers 60 emptyCache) 60 1 =
      ⟨some (serializeUser ⟨1, "u"⟩),
       warm_cache warmUsers warmPassengers 60 emptyCache, false, 0⟩ ∧
    PassengerViewSet.retrieve warmPassengers
        (warm_cache warmUsers warmPassengers 60 emptyCache) 60 2 =
      ⟨some (serializePassenger ⟨2, "p"⟩),
       warm_cache warmUsers warmPassengers 60 emptyCache, false, 0⟩ ∧
    warm_cache warmUsers warmPassengers 60 (warm_cache warmUsers warmPassengers 60 emptyCache)
      = warm_cache warmUsers warmPassengers 60 emptyCache := by
  have h := warm_cache_round_trip warmUsers warmPassengers 60 emptyCache
    (by decide) (by decide)
  exact ⟨h.1, h.2.2.1 1 ⟨1, "u"⟩ rfl, h.2.2.2.1 2 ⟨2, "p"⟩ rfl, h.2.2.2.2⟩

theorem tagKey_inj {a b : String} (h : tagKey a = tagKey b) : a = b := by
  cases a with | mk la =>
  cases b with | mk lb =>
  unfold tagKey at h
  injection h with h2
  exact congrArg String.mk (List.append_cancel_left h2)

theorem mem_setInsert_self (s : List String) (k : String) : k ∈ setInsert s k := by
  unfold setInsert
  by_cases h : k ∈ s <;> simp [h]

theorem mem_setInsert_of_mem {s : List String} {x : String} (k : String) (h : x ∈ s) :
    x ∈ setInsert s k := by
  unfold setInsert
  by_cases h2 : k ∈ s <;> simp [h2, h]

theorem keysAt_of_find_keys {c : TStore} {T : String} {s : List String} {t : Nat}
    (h : c.find (tagKey T) = some (TVal.keys s, t)) : keysAt c T = s := by
  unfold keysAt
  rw [h]

theorem keysAt_of_asKeySet {c : TStore} {tg : String} {s0 : List String}
    (h : asKeySet (c.find (tagKey tg)) = some s0) : keysAt c tg = s0 := by
  unfold keysAt
  cases hf : c.find (tagKey tg) with
  | none =>
      rw [hf] at h
      injection h with h2
  | some p =>
      rcases p with ⟨tv, tt⟩
      cases tv with
      | keys s =>
          rw [hf] at h
          injection h with h2
      | data d =>
          rw [hf] at h
          simp [asKeySet] at h

theorem foldl_del_find : ∀ (l : List String) (c : TStore) (x : String),
    ((l.foldl (fun acc k2 => acc.del k2) c).find x) = if x ∈ l then none else c.find x := by
  intro l
  induction l with
  | nil => intro c x; simp
  | cons k2 l ih =>
      intro c x
      show ((l.foldl _ (c.del k2)).find x) = _
      rw [ih]
      by_cases hx : x ∈ l
      · simp [hx]
      · rw [if_neg hx, KVStore.find_del]
        by_cases hk : x = k2
        · simp [hk]
        · simp [hk, hx]

/-- Behaviour of the tag loop of `cache_with_tags` on a successful run:
keys outside the touched tag slots are unchanged; every listed tag had a
usable (absent or set-valued) slot at the start; and every listed tag ends
with a key set containing the new key, all previously recorded keys, stored
with the call's timeout. -/
theorem foldlM_addTag_spec (k : String) (t : Nat) :
    ∀ (tags : List String) (c c' : TStore),
      List.foldlM (addTag k t) c tags = some c' →
      (∀ x, (∀ tg, tg ∈ tags → x ≠ tagKey tg) → c'.find x = c.find x) ∧
      (∀ T, T ∈ tags → asKeySet (c.find (tagKey T)) = some (keysAt c T)) ∧
      (∀ T, T ∈ tags → ∃ s, c'.find (tagKey T) = some (TVal.keys s, t) ∧ k ∈ s ∧
        ∀ x, x ∈ keysAt c T → x ∈ s) := by
  intro tags
  induction tags with
  | nil =>
      intro c c' h
      rw [List.foldlM_nil] at h
      injection h with h2
      subst h2
      exact ⟨fun x _ => rfl, fun T hT => absurd hT (List.not_mem_nil T),
        fun T hT => absurd hT (List.not_mem_nil T)⟩
  | cons tg rest ih =>
      intro c c' h
      rw [List.foldlM_cons] at h
      cases hstep : addTag k t c tg with
      | none => rw [hstep] at h; simp at h
      | some c1 =>
          rw [hstep] at h
          simp only [Option.bind_eq_bind, Option.some_bind] at h
          obtain ⟨f1, f2, f3⟩ := ih c1 c' h
          cases hks : asKeySet (c.find (tagKey tg)) with
          | none => rw [addTag, hks] at hstep; simp at hstep
          | some s0 =>
              have hc1 : c1 = c.set (tagKey tg) (TVal.keys (setInsert s0 k)) t := by
                rw [addTag, hks] at hstep
                injection hstep with h2
                exact h2.symm
              subst hc1
              have hs0 : keysAt c tg = s0 := keysAt_of_asKeySet hks
              refine ⟨?_, ?_, ?_⟩
              · intro x hx
                have hxr : ∀ tg2, tg2 ∈ rest → x ≠ tagKey tg2 :=
                  fun tg2 h2 => hx tg2 (List.mem_cons_of_mem _ h2)
                rw [f1 x hxr, KVStore.find_set,
                  if_neg (hx tg (List.mem_cons_self _ _))]
              · intro T hT
                rcases List.mem_cons.mp hT with hT1 | hT2
                · subst hT1
                  rw [hks, hs0]
                · by_cases hTtg : tagKey T = tagKey tg
                  · have hTeq : T = tg := tagKey_inj hTtg
                    subst hTeq
                    rw [hks, hs0]
                  · have hfind : (KVStore.set c (tagKey tg) (TVal.keys (setInsert s0 k))
                        t).find (tagKey T) = c.find (tagKey T) := by
                      rw [KVStore.find_set, if_neg hTtg]
                    have hkeys : keysAt (KVStore.set c (tagKey tg)
                        (TVal.keys (setInsert s0 k)) t) T = keysAt c T := by
                      unfold keysAt
                      rw [hfind]
                    rw [← hfind, ← hkeys]
                    exact f2 T hT2
              · intro T hT
                by_cases hTtg : tagKey T = tagKey tg
                · have hTeq : T = tg := tagKey_inj hTtg
                  subst hTeq
                  have hkeys1 : keysAt (KVStore.set c (tagKey T)
                      (TVal.keys (setInsert s0 k)) t) T = setInsert s0 k :=
                    keysAt_of_find_keys (by rw [KVStore.find_set, if_pos rfl])
                  by_cases hTrest : T ∈ rest
                  · obtain ⟨s, hfind, hk, hsub⟩ := f3 T hTrest
                    refine ⟨s, hfind, hk, fun x hx => hsub x ?_⟩
                    rw [hkeys1]
                    exact mem_setInsert_of_mem k (hs0 ▸ hx)
                  · have hfr : c'.find (tagKey T) = (KVStore.set c (tagKey T)
                        (TVal.keys (setInsert s0 k)) t).find (tagKey T) :=
                      f1 _ (fun tg2 h2 hcon => hTrest (by rw [tagKey_inj hcon]; exact h2))
                    refine ⟨setInsert s0 k, ?_, mem_setInsert_self _ _,
                      fun x hx => mem_setInsert_of_mem k (hs0 ▸ hx)⟩
                    rw [hfr, KVStore.find_set, if_pos rfl]
                · have hTrest : T ∈ rest := by
                    rcases List.mem_cons.mp hT with h1 | h2
                    · exact absurd (congrArg tagKey h1) hTtg
                    · exact h2
                  obtain ⟨s, hfind, hk, hsub⟩ := f3 T hTrest
                  refine ⟨s, hfind, hk, fun x hx => hsub x ?_⟩
                  have hkeys : keysAt (KVStore.set c (tagKey tg)
                      (TVal.keys (setInsert s0 k)) t) T = keysAt c T := by
                    unfold keysAt
                    rw [KVStore.find_set, if_neg hTtg]
                  rw [hkeys]
                  exact hx

/-- C6: after tagging K1 and then K2 under tag T (each via a successful
`cache_with_tags` call whose tag list contains T), `invalidate_by_tag T`
leaves K1 absent, K2 absent and the tag entry itself absent; and on any
store whose tag slot records no keys, `invalidate_by_tag T` changes no key
other than the tag entry. -/
theorem tag_invalidation (c c1 c2 : TStore) (K1 K2 T d1 d2 : String) (t1 t2 : Nat)
    (tags1 tags2 : List String) (hT1 : T ∈ tags1) (hT2 : T ∈ tags2)
    (h1 : cache_with_tags K1 d1 tags1 t1 c = some c1)
    (h2 : cache_with_tags K2 d2 tags2 t2 c1 = some c2) :
    (invalidate_by_tag T c2).find K1 = none ∧
    (invalidate_by_tag T c2).find K2 = none ∧
    (invalidate_by_tag T c2).find (tagKey T) = none ∧
    (∀ (c3 : TStore) (x : String), storedTagKeys (c3.find (tagKey T)) = [] →
      x ≠ tagKey T → (invalidate_by_tag T c3).find x = c3.find x) := by
  obtain ⟨f1, f2, f3⟩ :=
    foldlM_addTag_spec K1 t1 tags1 (c.set K1 (TVal.data d1) t1) c1 h1
  obtain ⟨g1, g2, g3⟩ :=
    foldlM_addTag_spec K2 t2 tags2 (c1.set K2 (TVal.data d2) t2) c2 h2
  obtain ⟨s1, hs1find, hK1s1, _⟩ := f3 T hT1
  have hK2ne : tagKey T ≠ K2 := by
    intro heq
    have hg := g2 T hT2
    rw [KVStore.find_set, if_pos heq] at hg
    simp [asKeySet] at hg
  obtain ⟨s2, hs2find, hK2s2, hsub⟩ := g3 T hT2
  have hstart : keysAt (c1.set K2 (TVal.data d2) t2) T = s1 :=
    keysAt_of_find_keys (by rw [KVStore.find_set, if_neg hK2ne]; exact hs1find)
  have hK1s2 : K1 ∈ s2 := hsub K1 (hstart ▸ hK1s1)
  have hstored : storedTagKeys (c2.find (tagKey T)) = s2 := by
    rw [hs2find]
    rfl
  refine ⟨?_, ?_, ?_, ?_⟩
  · show (((storedTagKeys (c2.find (tagKey T))).foldl
        (fun acc k => acc.del k) c2).del (tagKey T)).find K1 = none
    rw [hstored, KVStore.find_del]
    by_cases hk : K1 = tagKey T
    · rw [if_pos hk]
    · rw [if_neg hk, foldl_del_find, if_pos hK1s2]
  · show (((storedTagKeys (c2.find (tagKey T))).foldl
        (fun acc k => acc.del k) c2).del (tagKey T)).find K2 = none
    rw [hstored, KVStore.find_del]
    by_cases hk : K2 = tagKey T
    · rw [if_pos hk]
    · rw [if_neg hk, foldl_del_find, if_pos hK2s2]
  · show (((storedTagKeys (c2.find (tagKey T))).foldl
        (fun acc k => acc.del k) c2).del (tagKey T)).find (tagKey T) = none
    rw [KVStore.find_del, if_pos rfl]
  · intro c3 x hst hx
    show (((storedTagKeys (c3.find (tagKey T))).foldl
        (fun acc k => acc.del k) c3).del (tagKey T)).find x = c3.find x
    rw [hst]
    show ((c3.del (tagKey T)).find x) = c3.find x
    rw [KVStore.find_del, if_neg hx]

/-- Concrete store after tagging key k1 under tag T (used by the C6
witness). -/
def cT1 : TStore :=
  (emptyTStore.set "k1" (TVal.data "d1") 5).set (tagKey "T") (TVal.keys ["k1"]) 5

/-- Concrete store after additionally tagging key k2 under tag T. -/
def cT2 : TStore :=
  (cT1.set "k2" (TVal.data "d2") 5).set (tagKey "T") (TVal.keys ["k1", "k2"]) 5

/-- C6 witness: a concrete pair of tagging calls followed by tag
invalidation, plus the no-op case on a store with no recorded keys. -/
theorem tag_invalidation_witness :
    (invalidate_by_tag "T" cT2).find "k1" = none ∧
    (invalidate_by_tag "T" cT2).find "k2" = none ∧
    (invalidate_by_tag "T" cT2).find (tagKey "T") = none ∧
    (invalidate_by_tag "T" emptyTStore).find "z" = emptyTStore.find "z" := by
  have h := tag_invalidation emptyTStore cT1 cT2 "k1" "k2" "T" "d1" "d2" 5 5 ["T"] ["T"]
    (by simp) (by simp) rfl rfl
  exact ⟨h.1, h.2.1, h.2.2.1, h.2.2.2 emptyTStore "z" rfl (by decide)⟩

/-- Stored TTLs of a successful `cache_with_tags` run: the data entry and
every listed tag's key set carry exactly the call's timeout. -/
theorem cache_with_tags_stored_ttl (key data : String) (tags : List String)
    (c c' : TStore) (t : Nat) (h : cache_with_tags key data tags t c = some c') :
    c'.find key = some (TVal.data data, t) ∧
    (∀ T, T ∈ tags → ∃ s, c'.find (tagKey T) = some (TVal.keys s, t)) := by
  obtain ⟨f1, f2, f3⟩ :=
    foldlM_addTag_spec key t tags (c.set key (TVal.data data) t) c' h
  have hne : ∀ tg, tg ∈ tags → key ≠ tagKey tg := by
    intro tg htg heq
    have hg := f2 tg htg
    rw [KVStore.find_set, if_pos heq.symm] at hg
    simp [asKeySet] at hg
  constructor
  · rw [f1 key hne, KVStore.find_set, if_pos rfl]
  · intro T hT
    obtain ⟨s, hfind, _, _⟩ := f3 T hT
    exact ⟨s, hfind⟩

/-- C10: both the data entry and every tag key set written by one
`cache_with_tags` call carry that call's timeout, and when the call is made
without an explicit timeout argument that timeout is the source's literal
default of 300 seconds — not the `settings.CACHE_TTL` used by the rest of
the caching layer. -/
theorem cache_with_tags_ttl (key data : String) (tags : List String)
    (c c' : TStore) (t : Nat) (h : cache_with_tags key data tags t c = some c') :
    (c'.find key = some (TVal.data data, t) ∧
      ∀ T, T ∈ tags → ∃ s, c'.find (tagKey T) = some (TVal.keys s, t)) ∧
    (∀ c2, cache_with_tags_default key data tags c = some c2 →
      c2.find key = some (TVal.data data, 300) ∧
      ∀ T, T ∈ tags → ∃ s, c2.find (tagKey T) = some (TVal.keys s, 300)) := by
  exact ⟨cache_with_tags_stored_ttl key data tags c c' t h,
    fun c2 h2 => cache_with_tags_stored_ttl key data tags c c2 300 h2⟩

/-- Concrete store produced by a default-timeout `cache_with_tags` call
(used by the C10 witness). -/
def cW : TStore :=
  (emptyTStore.set "a" (TVal.data "x") 300).set (tagKey "g") (TVal.keys ["a"]) 300

/-- C10 witness: a concrete default-timeout tagging call stores the data
entry and the tag key set with TTL 300. -/
theorem cache_with_tags_ttl_witness :
    cW.find "a" = some (TVal.data "x", 300) ∧
    (∃ s, cW.find (tagKey "g") = some (TVal.keys s, 300)) := by
  have h := cache_with_tags_ttl "a" "x" ["g"] emptyTStore cW 300 rfl
  exact ⟨(h.2 cW rfl).1, (h.2 cW rfl).2 "g" (by simp)⟩
